import Mathlib

/-!
Verification development for the Airsync receiver's audio calibration
subsystem.  The Rust sources are shallowly embedded: f32 arithmetic is
modelled over the rationals (the claims under scrutiny are about exact
value semantics, clamping, signs and rounding to three decimals, where
the rational model is the intended reading), fallible collaborator calls
(config writer, service restart controller, playback sink) are injected
as explicit Except values, and the shared mutex-protected configuration
is threaded as explicit state.
-/

/-- Rust's f32::clamp(lo, hi): lo if x < lo, hi if x > hi, else x. -/
def rustClamp (x lo hi : ℚ) : ℚ :=
  if x < lo then lo else if x > hi then hi else x

/-- airplay/config.rs: ShairportConfig. -/
structure ShairportConfig where
  device_name : String
  output_device : String
  latency_offset_seconds : ℚ
deriving DecidableEq

/-- shared-protocol device.rs AudioOutput variants used by generate_config. -/
inductive AudioOutput where
  | I2S
  | USB
  | HDMI
  | Headphone
deriving DecidableEq

/-- airplay/config.rs: generate_config. -/
def generate_config (device_name : Option String) (preferred_output : AudioOutput) :
    ShairportConfig :=
  let output_device :=
    match preferred_output with
    | .I2S => "hw:0,0"
    | .USB => "hw:1,0"
    | .HDMI => "hdmi"
    | .Headphone => "hw:0,0"
  { device_name := device_name.getD "AirSync"
    output_device := output_device
    latency_offset_seconds := 0 }

/-- calibration/mod.rs: CalibrationOutcome. -/
structure CalibrationOutcome where
  measured_latency_ms : ℚ
  applied_offset_ms : ℚ
  was_clamped : Bool
deriving DecidableEq

/-- calibration/mod.rs: CalibrationApplier::apply_latency.  The config
writer and restart controller results are injected (writeRes, restartRes);
the optional AIRSYNC_FORCE_LATENCY_MS override is the override_latency
argument.  First component: the Result returned to the caller.  Second
component: the configuration value whose rendering was successfully
persisted by the writer (none if the write failed).  The source performs
write then restart, each behind the question-mark operator, so either
error propagates. -/
def apply_latency (writeRes restartRes : Except Unit Unit)
    (override_latency : Option ℚ) (config : ShairportConfig)
    (measured_latency_ms : ℚ) :
    Except Unit CalibrationOutcome × Option ShairportConfig :=
  let effective_latency_ms := override_latency.getD measured_latency_ms
  let clamped_latency_ms := rustClamp effective_latency_ms (-250) 250
  let offset_seconds := -clamped_latency_ms / 1000
  let config2 := { config with latency_offset_seconds := offset_seconds }
  match writeRes with
  | .error e => (.error e, none)
  | .ok _ =>
    match restartRes with
    | .error e => (.error e, some config2)
    | .ok _ =>
      (.ok { measured_latency_ms := effective_latency_ms
             applied_offset_ms := offset_seconds * 1000
             was_clamped := decide (clamped_latency_ms ≠ effective_latency_ms) },
       some config2)

/-- calibration/mod.rs: SystemdShairportController::restart.  skip_env is
the AIRSYNC_SKIP_SHAIRPORT_RESTART check; sudo_status and direct_status
are the outcomes of the two systemctl invocations (some b: exited, with
success = b; none: the command could not be run).  The source returns Ok
in every branch: a failed restart is logged and ignored. -/
def systemd_restart (skip_env : Bool) (sudo_status direct_status : Option Bool) :
    Except Unit Unit :=
  if skip_env then .ok ()
  else
    match sudo_status with
    | some true => .ok ()
    | _ =>
      match direct_status with
      | some true => .ok ()
      | _ => .ok ()

/-- shared-protocol calibration.rs: ChirpConfig. -/
structure ChirpConfig where
  start_freq : ℕ
  end_freq : ℕ
  duration : ℕ
  repetitions : ℕ
  interval_ms : ℕ
  amplitude : Option ℚ
deriving DecidableEq

/-- chirp.rs generate_chirp_samples: the argument of sin, divided by 2·π
(i.e. the phase in turns), at burst time t seconds.  The source computes
sweep_k = (end_freq - start_freq) / duration_s and then
phase = 2·PI·(start_freq·t + 0.5·sweep_k·t·t / duration_s); note the second
division by duration_s inside the phase expression. -/
def chirpPhaseTurns (cfg : ChirpConfig) (t : ℚ) : ℚ :=
  let duration_s : ℚ := (cfg.duration : ℚ) / 1000
  let sweep_k : ℚ := ((cfg.end_freq : ℚ) - (cfg.start_freq : ℚ)) / duration_s
  (cfg.start_freq : ℚ) * t + 1 / 2 * sweep_k * t * t / duration_s

/-- Modelled from the spec: the linear-sweep phase (in turns) the spec
prescribes for the chirp generator, namely the instantaneous-phase
integral start_freq·t + 0.5·k·t² with k = (end_freq - start_freq) /
duration_seconds, the same technique as the structured-signal sweep
primitive.  Kept for comparison with chirpPhaseTurns above. -/
def chirpPhaseTurnsSpec (cfg : ChirpConfig) (t : ℚ) : ℚ :=
  let duration_s : ℚ := (cfg.duration : ℚ) / 1000
  let k : ℚ := ((cfg.end_freq : ℚ) - (cfg.start_freq : ℚ)) / duration_s
  (cfg.start_freq : ℚ) * t + 1 / 2 * k * t * t

/-- http.rs: PendingPlayback (the single mutex-guarded scheduler slot;
it is an Option, never a queue, so at most one pending playback exists). -/
structure PendingPlayback where
  chirp : ChirpConfig
  delay_ms : ℕ
  requested_at : ℕ
deriving DecidableEq

/-- http.rs: CalibrationRequestPayload. -/
structure CalibrationRequestPayload where
  timestamp : ℕ
  chirp_config : ChirpConfig
  delay_ms : Option ℕ
deriving DecidableEq

/-- http.rs: CalibrationReadyPayload. -/
structure CalibrationReadyPayload where
  timestamp : Option ℕ
  target_start_ms : Option ℕ
deriving DecidableEq

/-- http.rs: calibration_request handler.  Unconditionally stores a new
PendingPlayback (stamped with the arrival time) in the slot and answers
200.  No playback happens here. -/
def calibration_request (slot : Option PendingPlayback)
    (req : CalibrationRequestPayload) (now : ℕ) :
    Option PendingPlayback × ℕ :=
  let delay := req.delay_ms.getD 2000
  let _ := slot
  (some { chirp := req.chirp_config, delay_ms := delay, requested_at := now },
   200)

/-- http.rs: calibration_ready handler.  Takes the pending slot (leaving
it empty).  With no pending request it answers 400 and plays nothing;
otherwise it answers 200 and the spawned task waits until the target
time (target_start_ms, defaulting to now + delay_ms, with a saturating
subtraction for the wait) and then invokes the playback sink exactly
once with the stored chirp.  The result lists the chirp configs handed
to the playback sink. -/
def calibration_ready (slot : Option PendingPlayback)
    (req : CalibrationReadyPayload) (now : ℕ) :
    Option PendingPlayback × (ℕ × List ChirpConfig) :=
  match slot with
  | none => (none, (400, []))
  | some pending =>
    let target := req.target_start_ms.getD (now + pending.delay_ms)
    let wait_ms := target - now
    let _ := wait_ms
    (none, (200, [pending.chirp]))

/-- A sequence of calibration_request events (each paired with its
arrival time), folded over the pending-playback slot. -/
def run_requests (reqs : List (CalibrationRequestPayload × ℕ))
    (slot : Option PendingPlayback) : Option PendingPlayback :=
  reqs.foldl (fun s rn => (calibration_request s rn.1 rn.2).1) slot

/-- shared-protocol calibration.rs: CalibrationSubmission. -/
structure CalibrationSubmission where
  timestamp : ℕ
  latency_ms : ℚ
  confidence : ℚ
deriving DecidableEq

/-- http.rs: CalibrationApplyResponse. -/
structure CalibrationApplyResponse where
  measured_latency_ms : ℚ
  applied_offset_ms : ℚ
  was_clamped : Bool
deriving DecidableEq

/-- http.rs: ShairportCalibrationSink::apply.  It clones the shared
config and hands the clone by value to apply_latency.  First component:
(shared config after the call, persisted config value if the write
succeeded); second: the Result returned to the HTTP layer.  The shared
config is returned as it stood: the source never writes back through
the mutex. -/
def sink_apply (writeRes restartRes : Except Unit Unit)
    (override_latency : Option ℚ) (shared : ShairportConfig)
    (submission : CalibrationSubmission) :
    (ShairportConfig × Option ShairportConfig) ×
      Except Unit CalibrationApplyResponse :=
  let r := apply_latency writeRes restartRes override_latency shared
    submission.latency_ms
  match r.1 with
  | .error e => ((shared, r.2), .error e)
  | .ok outcome =>
    ((shared, r.2),
     .ok { measured_latency_ms := submission.latency_ms
           applied_offset_ms := outcome.applied_offset_ms
           was_clamped := outcome.was_clamped })

/-- http.rs: SettingsUpdatePayload. -/
structure SettingsUpdatePayload where
  device_name : Option String
  output_device : Option String
  latency_offset_seconds : Option ℚ
deriving DecidableEq

/-- http.rs: ShairportSettingsManager::update.  The shared config is
mutated field by field under the lock, then rendered, written and the
service restarted (both behind the question-mark operator).  First
component: the shared in-memory config after the call (the mutation
stands whatever happens next); second: the Result returned to the
caller. -/
def settings_update (writeRes restartRes : Except Unit Unit)
    (cfg : ShairportConfig) (update : SettingsUpdatePayload) :
    ShairportConfig × Except Unit ShairportConfig :=
  let cfg1 := match update.device_name with
    | some n => { cfg with device_name := n }
    | none => cfg
  let cfg2 := match update.output_device with
    | some o => { cfg1 with output_device := o }
    | none => cfg1
  let cfg3 := match update.latency_offset_seconds with
    | some l => { cfg2 with latency_offset_seconds := l }
    | none => cfg2
  match writeRes with
  | .error e => (cfg3, .error e)
  | .ok _ =>
    match restartRes with
    | .error e => (cfg3, .error e)
    | .ok _ => (cfg3, .ok cfg3)

/-- airplay/config.rs render_config_file formats the latency offset with
fixed three decimals (the Rust formatter rounds the value to the nearest
thousandth); re-parsing the rendered decimal numeral therefore yields
round(q·1000)/1000.  This is the value denoted by the rendered field. -/
def rendered_latency_offset (q : ℚ) : ℚ :=
  ((round (q * 1000) : ℤ) : ℚ) / 1000

/-- shared-protocol calibration.rs: MarkerKind. -/
inductive MarkerKind where
  | click
  | chirp (start_freq end_freq duration_ms : ℕ)
deriving DecidableEq

/-- shared-protocol calibration.rs: MarkerSpec. -/
structure MarkerSpec where
  id : String
  kind : MarkerKind
  start_sample : ℕ
  duration_samples : ℕ
deriving DecidableEq

/-- The waveform shapes mixed by calibration/signal.rs SignalBuilder:
mix_constant, mix_sine and mix_sweep. -/
inductive Waveform where
  | const
  | sine (freq : ℚ)
  | sweep (start_freq end_freq : ℚ)
deriving DecidableEq

/-- One mix_wave call of calibration/signal.rs: the placement, raw
fade_samples argument, amplitude and waveform of one acoustic event. -/
structure SigEvent where
  start : ℕ
  dur : ℕ
  fade_samples : ℕ
  amp : ℚ
  wave : Waveform
deriving DecidableEq

/-- The data generate_structured_signal computes: the marker list of the
returned CalibrationSignalSpec, the mix events that define the float
buffer, and the final buffer length (length_samples). -/
structure GeneratedSignal where
  markers : List MarkerSpec
  events : List SigEvent
  length_samples : ℕ
deriving DecidableEq

/-- calibration/signal.rs: SAMPLE_RATE. -/
def SAMPLE_RATE : ℕ := 48000

/-- calibration/signal.rs: TARGET_LENGTH_MS. -/
def TARGET_LENGTH_MS : ℕ := 4700

/-- calibration/signal.rs: ms_to_samples (exact integer arithmetic in
the source: ms · 48000 / 1000 with truncating division). -/
def ms_to_samples (ms : ℕ) : ℕ :=
  ms * SAMPLE_RATE / 1000

/-- Accumulator for the multi-tone for-loop of
generate_structured_signal: the running cursor, the float-buffer length
(every mix_wave call does ensure_len(start + duration), so the buffer
length is the running maximum of the mix ends), and the marker and
event lists built so far. -/
structure BuildAcc where
  cursor : ℕ
  blen : ℕ
  markers : List MarkerSpec
  events : List SigEvent

/-- One iteration of the multi-tone loop in generate_structured_signal:
mix a fixed-frequency tone at the cursor, record its marker, advance the
cursor by the tone length plus the gap. -/
def tone_step (chirp_duration_ms chirp_len gap_ms : ℕ) (acc : BuildAcc)
    (p : ℕ × ℕ) : BuildAcc :=
  let idx := p.1
  let freq := p.2
  let start := acc.cursor
  { cursor := start + chirp_len + ms_to_samples gap_ms
    blen := max acc.blen (start + chirp_len)
    markers := acc.markers ++
      [{ id := "chirp_" ++ toString (idx + 1)
         kind := .chirp freq freq chirp_duration_ms
         start_sample := start
         duration_samples := chirp_len }]
    events := acc.events ++
      [{ start := start, dur := chirp_len, fade_samples := chirp_len / 12
         amp := 85 / 100, wave := .sine (freq : ℚ) }] }

/-- calibration/signal.rs: generate_structured_signal, as the markers,
mix events and final sample count it produces (the file writing and the
float buffer itself are modelled separately; the buffer length is the
running maximum of mix ends, extended to the target length at the
end). -/
def generate_structured_signal : GeneratedSignal :=
  let preroll_ms := 520
  let preroll_len := ms_to_samples preroll_ms
  let preroll_fade := preroll_len / 8
  let blen := max 0 preroll_len
  let markers : List MarkerSpec :=
    [{ id := "warmup", kind := .chirp 120 120 preroll_ms
       start_sample := 0, duration_samples := preroll_len }]
  let events : List SigEvent :=
    [{ start := 0, dur := preroll_len, fade_samples := preroll_fade
       amp := 9 / 100, wave := .sine 120 }]
  let cursor := ms_to_samples 320
  let click_a_len := ms_to_samples 12
  let blen := max blen (cursor + click_a_len)
  let markers := markers ++
    [{ id := "click_a", kind := .click
       start_sample := cursor, duration_samples := click_a_len }]
  let events := events ++
    [{ start := cursor, dur := click_a_len, fade_samples := click_a_len / 2
       amp := 72 / 100, wave := .const }]
  let cursor := cursor + click_a_len
  let cursor := cursor + ms_to_samples 20
  let sweep_ms := 150
  let sweep_len := ms_to_samples sweep_ms
  let sweep_start := cursor
  let blen := max blen (sweep_start + sweep_len)
  let markers := markers ++
    [{ id := "sweep_anchor", kind := .chirp 400 9000 sweep_ms
       start_sample := sweep_start, duration_samples := sweep_len }]
  let events := events ++
    [{ start := sweep_start, dur := sweep_len, fade_samples := sweep_len / 10
       amp := 65 / 100, wave := .sweep 400 9000 }]
  let cursor := cursor + sweep_len
  let cursor := cursor + ms_to_samples 200
  let chirp_duration_ms := 120
  let chirp_len := ms_to_samples chirp_duration_ms
  let gap_ms := 260
  let freqs : List ℕ := [800, 1000, 3000, 6000, 8000, 10000, 4000]
  let acc := freqs.enum.foldl (tone_step chirp_duration_ms chirp_len gap_ms)
    { cursor := cursor, blen := blen, markers := markers, events := events }
  let cursor := acc.cursor
  let blen := acc.blen
  let markers := acc.markers
  let events := acc.events
  let cursor := cursor + ms_to_samples 200
  let click_b_len := ms_to_samples 14
  let click_b_start := cursor
  let blen := max blen (click_b_start + click_b_len)
  let markers := markers ++
    [{ id := "click_b", kind := .click
       start_sample := click_b_start, duration_samples := click_b_len }]
  let events := events ++
    [{ start := click_b_start, dur := click_b_len
       fade_samples := click_b_len * 3 / 4
       amp := 45 / 100, wave := .const }]
  let cursor := cursor + click_b_len
  let cursor := cursor + ms_to_samples 60
  let warmdown_ms := 220
  let warmdown_len := ms_to_samples warmdown_ms
  let warmdown_start := cursor
  let blen := max blen (warmdown_start + warmdown_len)
  let markers := markers ++
    [{ id := "warmdown", kind := .chirp 200 200 warmdown_ms
       start_sample := warmdown_start, duration_samples := warmdown_len }]
  let events := events ++
    [{ start := warmdown_start, dur := warmdown_len
       fade_samples := warmdown_len / 8
       amp := 35 / 1000, wave := .sine 200 }]
  let cursor := cursor + warmdown_len
  let target_len := max (ms_to_samples TARGET_LENGTH_MS) cursor
  let blen := max blen target_len
  { markers := markers, events := events, length_samples := blen }

/-- The effective fade length of calibration/signal.rs
raised_cosine_window: fade_samples.max(1).min(len / 2). -/
def fadeOf (len fade_samples : ℕ) : ℕ :=
  min (max fade_samples 1) (len / 2)

/-- calibration/signal.rs: raised_cosine_window.  Indices below the
effective fade length fade in with a raised cosine, indices at or above
len - fade fade out symmetrically (with k = len - 1 - n computed in
usize, i.e. ℕ), and the middle is 1.  A window of length at most 1 is
the constant 1. -/
noncomputable def raised_cosine_window (n len fade_samples : ℕ) : ℝ :=
  if len ≤ 1 then 1
  else if n < fadeOf len fade_samples then
    1 / 2 - 1 / 2 * Real.cos (Real.pi * n / (fadeOf len fade_samples : ℕ))
  else if len - fadeOf len fade_samples ≤ n then
    1 / 2 - 1 / 2 *
      Real.cos (Real.pi * ((len - 1 - n : ℕ) : ℝ) / (fadeOf len fade_samples : ℕ))
  else 1

/-- The waveform value at local sample n (t = n / 48000 s) for the three
SignalBuilder primitives: mix_constant is 1, mix_sine is
sin(2·π·f·t), mix_sweep is sin(2·π·(f0·t + k/2·t²)) with
k = (f1 - f0)/(dur/48000), exactly as in calibration/signal.rs. -/
noncomputable def waveAt (w : Waveform) (dur n : ℕ) : ℝ :=
  let sr : ℝ := (SAMPLE_RATE : ℝ)
  let t : ℝ := (n : ℝ) / sr
  match w with
  | .const => 1
  | .sine f => Real.sin (2 * Real.pi * (f : ℝ) * t)
  | .sweep f0 f1 =>
    let total_seconds : ℝ := (dur : ℝ) / sr
    let k : ℝ := ((f1 : ℝ) - (f0 : ℝ)) / total_seconds
    Real.sin (2 * Real.pi * ((f0 : ℝ) * t + k / 2 * (t * t)))

/-- The additive contribution of one mix_wave call to float-buffer index
n: amp · envelope · waveform inside the event's sample range, 0
elsewhere. -/
noncomputable def contrib (e : SigEvent) (n : ℕ) : ℝ :=
  if e.start ≤ n ∧ n < e.start + e.dur then
    (e.amp : ℝ) * raised_cosine_window (n - e.start) e.dur e.fade_samples *
      waveAt e.wave e.dur (n - e.start)
  else 0

/-- The float accumulation buffer of generate_structured_signal at index
n: the sum of all mixed event contributions (indices past every event
are the zero padding). -/
noncomputable def signalSample (n : ℕ) : ℝ :=
  (generate_structured_signal.events.map (fun e => contrib e n)).sum

/-- Rust's f32::clamp over the reals (for the final s.clamp(-0.97, 0.97)). -/
noncomputable def rustClampR (x lo hi : ℝ) : ℝ :=
  if x < lo then lo else if x > hi then hi else x

/-- Rust's float-to-integer `as` cast rounds toward zero. -/
noncomputable def truncZ (x : ℝ) : ℤ :=
  if 0 ≤ x then ⌊x⌋ else ⌈x⌉

/-- calibration/signal.rs: the final 16-bit PCM quantisation
(s.clamp(-0.97, 0.97) * i16::MAX) as i16, with i16::MAX = 32767. -/
noncomputable def pcmSample (n : ℕ) : ℤ :=
  truncZ (rustClampR (signalSample n) (-(97 / 100)) (97 / 100) * 32767)

/-- The effective fade length raised_cosine_window uses for an event. -/
def effFade (e : SigEvent) : ℕ :=
  min (max e.fade_samples 1) (e.dur / 2)

/-- Per-sample waveform phase increase, in units of π: 2·F/48000 for a
waveform whose instantaneous frequency stays at most F. -/
def wrateQ : Waveform → ℚ
  | .const => 0
  | .sine f => 2 * f / 48000
  | .sweep _ f1 => 2 * f1 / 48000

/-- Sample-to-sample slope budget of one event, in units of π:
amplitude · (waveform rate + envelope rate). -/
def cDeltaQ (e : SigEvent) : ℚ :=
  e.amp * (wrateQ e.wave + 1 / (2 * (effFade e : ℚ)))

/-- Side conditions on waveform parameters (all hold for the generated
events): sine frequencies are nonnegative and sweeps go upward from a
nonnegative start. -/
def waveOK : Waveform → Prop
  | .const => True
  | .sine f => 0 ≤ f
  | .sweep f0 f1 => 0 ≤ f0 ∧ f0 ≤ f1
/-- The warm-up hum mix event of generate_structured_signal (the only event overlapping others). -/
def prerollEvent : SigEvent :=
  { start := 0, dur := 24960, fade_samples := 3120, amp := 9 / 100, wave := .sine 120 }

/-- The remaining mix events of generate_structured_signal, in placement order: leading click, sweep anchor, the seven tone markers, trailing click, warm-down hum.  Their sample ranges are pairwise disjoint with at least one sample of slack. -/
def restEvents : List SigEvent :=
  [{ start := 15360, dur := 576, fade_samples := 288, amp := 72 / 100, wave := .const },
   { start := 16896, dur := 7200, fade_samples := 720, amp := 65 / 100, wave := .sweep 400 9000 },
   { start := 33696, dur := 5760, fade_samples := 480, amp := 85 / 100, wave := .sine ((800 : ℕ) : ℚ) },
   { start := 51936, dur := 5760, fade_samples := 480, amp := 85 / 100, wave := .sine ((1000 : ℕ) : ℚ) },
   { start := 70176, dur := 5760, fade_samples := 480, amp := 85 / 100, wave := .sine ((3000 : ℕ) : ℚ) },
   { start := 88416, dur := 5760, fade_samples := 480, amp := 85 / 100, wave := .sine ((6000 : ℕ) : ℚ) },
   { start := 106656, dur := 5760, fade_samples := 480, amp := 85 / 100, wave := .sine ((8000 : ℕ) : ℚ) },
   { start := 124896, dur := 5760, fade_samples := 480, amp := 85 / 100, wave := .sine ((10000 : ℕ) : ℚ) },
   { start := 143136, dur := 5760, fade_samples := 480, amp := 85 / 100, wave := .sine ((4000 : ℕ) : ℚ) },
   { start := 170976, dur := 672, fade_samples := 504, amp := 45 / 100, wave := .const },
   { start := 174528, dur := 10560, fade_samples := 1320, amp := 35 / 1000, wave := .sine 200 }]


/-- Folding any nonempty request sequence over the pending-playback slot leaves exactly the last request armed (latest request wins). -/
theorem run_requests_last (reqs : List (CalibrationRequestPayload × ℕ))
    (h : reqs ≠ []) (slot : Option PendingPlayback) :
    run_requests reqs slot =
      some { chirp := (reqs.getLast h).1.chirp_config
             delay_ms := ((reqs.getLast h).1.delay_ms).getD 2000
             requested_at := (reqs.getLast h).2 } := by
  induction reqs generalizing slot with
  | nil => exact absurd rfl h
  | cons r rest ih =>
    cases rest with
    | nil => rfl
    | cons r2 rest2 =>
      rw [List.getLast_cons (by simp)]
      exact ih (by simp) _

/-- C1: with no operator override, apply_latency clamps the measured latency to [-250, 250]: inside the range was_clamped is false and applied_offset_ms = -L; above it the outcome is clamped with applied_offset_ms = -250, below it with +250; and the offset written into the configuration is -clamp(L, -250, 250)/1000 seconds. -/
theorem C1_apply_latency_clamp_and_sign (cfg : ShairportConfig) (L : ℚ) :
    ∃ out cfg2,
      apply_latency (.ok ()) (.ok ()) none cfg L = (.ok out, some cfg2) ∧
      ((-250 ≤ L ∧ L ≤ 250) → out.was_clamped = false ∧ out.applied_offset_ms = -L) ∧
      (250 < L → out.was_clamped = true ∧ out.applied_offset_ms = -250) ∧
      (L < -250 → out.was_clamped = true ∧ out.applied_offset_ms = 250) ∧
      cfg2.latency_offset_seconds = -(rustClamp L (-250) 250) / 1000 := by
  refine ⟨_, _, rfl, ?_, ?_, ?_, rfl⟩
  · rintro ⟨h1, h2⟩
    have hc : rustClamp L (-250) 250 = L := by
      unfold rustClamp
      rw [if_neg (by linarith), if_neg (by linarith)]
    refine ⟨?_, ?_⟩
    · show decide (rustClamp L (-250) 250 ≠ L) = false
      rw [hc]
      simp
    · show -(rustClamp L (-250) 250) / 1000 * 1000 = -L
      rw [hc]; ring
  · intro h
    have hc : rustClamp L (-250) 250 = 250 := by
      unfold rustClamp
      rw [if_neg (by linarith), if_pos (by linarith)]
    refine ⟨?_, ?_⟩
    · show decide (rustClamp L (-250) 250 ≠ L) = true
      rw [hc]
      exact decide_eq_true (ne_of_lt h)
    · show -(rustClamp L (-250) 250) / 1000 * 1000 = -250
      rw [hc]; ring
  · intro h
    have hc : rustClamp L (-250) 250 = -250 := by
      unfold rustClamp
      rw [if_pos (by linarith)]
    refine ⟨?_, ?_⟩
    · show decide (rustClamp L (-250) 250 ≠ L) = true
      rw [hc]
      exact decide_eq_true (ne_of_gt h)
    · show -(rustClamp L (-250) 250) / 1000 * 1000 = 250
      rw [hc]; ring

/-- C1 witness: at measured latency 800 ms the outcome is clamped with applied offset -250 ms. -/
theorem C1_witness :
    ∃ out cfg2,
      apply_latency (.ok ()) (.ok ()) none (generate_config none .I2S) 800 =
        (.ok out, some cfg2) ∧
      out.was_clamped = true ∧ out.applied_offset_ms = -250 := by
  obtain ⟨out, cfg2, heq, _, hHigh, _, _⟩ :=
    C1_apply_latency_clamp_and_sign (generate_config none .I2S) 800
  exact ⟨out, cfg2, heq, (hHigh (by norm_num)).1, (hHigh (by norm_num)).2⟩

/-- C2 (code-bug evidence): for the 2000 to 8000 Hz, 50 ms chirp, at the end of the burst (t = 1/20 s) the phase computed by generate_chirp_samples is 3100 cycles, while the spec's instantaneous-phase integral (the structured-signal sweep technique, which ends at end_freq) gives 250 cycles: the code divides the quadratic term by duration_s a second time. -/
theorem C2_chirp_phase_divergence :
    chirpPhaseTurns ⟨2000, 8000, 50, 5, 500, none⟩ (1 / 20) = 3100 ∧
    chirpPhaseTurnsSpec ⟨2000, 8000, 50, 5, 500, none⟩ (1 / 20) = 250 ∧
    chirpPhaseTurns ⟨2000, 8000, 50, 5, 500, none⟩ (1 / 20) ≠
      chirpPhaseTurnsSpec ⟨2000, 8000, 50, 5, 500, none⟩ (1 / 20) := by
  refine ⟨by norm_num [chirpPhaseTurns], by norm_num [chirpPhaseTurnsSpec], ?_⟩
  norm_num [chirpPhaseTurns, chirpPhaseTurnsSpec]

/-- C3 counterexample: with a successful write but a restart controller returning Err, apply_latency returns an error — the question-mark operator on restart propagates controller errors, contrary to the claim as stated. -/
theorem C3_restart_error_counterexample :
    (apply_latency (.ok ()) (.error ()) none (generate_config none .I2S) 10).1 =
      .error () := rfl

/-- C3 (amended): SystemdShairportController::restart returns Ok in every case (underlying systemctl failures are swallowed and logged inside it), so apply_latency composed with it fails exactly when the configuration write fails; a write failure is returned to the caller. -/
theorem C3_amended_restart_best_effort (skip : Bool)
    (sudoS directS : Option Bool) (w : Except Unit Unit) (ov : Option ℚ)
    (cfg : ShairportConfig) (L : ℚ) :
    systemd_restart skip sudoS directS = .ok () ∧
    ((apply_latency w (systemd_restart skip sudoS directS) ov cfg L).1 = .error ()
      ↔ w = .error ()) := by
  have hr : systemd_restart skip sudoS directS = .ok () := by
    unfold systemd_restart
    cases skip with
    | true => rfl
    | false =>
      rcases sudoS with _ | b
      · rcases directS with _ | c
        · rfl
        · cases c <;> rfl
      · cases b
        · rcases directS with _ | c
          · rfl
          · cases c <;> rfl
        · rfl
  rw [hr]
  refine ⟨rfl, ?_⟩
  cases w with
  | error e => cases e; exact ⟨fun _ => rfl, fun _ => rfl⟩
  | ok u =>
    cases u
    constructor
    · intro hcontra
      exact absurd hcontra (by simp [apply_latency])
    · intro hcontra
      exact absurd hcontra (by simp)

/-- C4: for any nonempty sequence of Request events followed by one Ready, the single slot holds exactly the pending playback of the most recent Request (each Request unconditionally replaces the previous one), and Ready empties the slot and invokes the playback sink exactly once, with exactly the most recent Request's chirp configuration. -/
theorem C4_latest_request_wins (reqs : List (CalibrationRequestPayload × ℕ))
    (h : reqs ≠ []) (rdy : CalibrationReadyPayload) (now : ℕ) :
    run_requests reqs none =
      some { chirp := (reqs.getLast h).1.chirp_config
             delay_ms := ((reqs.getLast h).1.delay_ms).getD 2000
             requested_at := (reqs.getLast h).2 } ∧
    calibration_ready (run_requests reqs none) rdy now =
      (none, (200, [(reqs.getLast h).1.chirp_config])) := by
  have hlast := run_requests_last reqs h none
  exact ⟨hlast, by rw [hlast]; rfl⟩

/-- C4 witness: after two Requests with no intervening Ready, the subsequent Ready plays only the second chirp configuration. -/
theorem C4_witness :
    calibration_ready
      (run_requests
        [(⟨1, ⟨2000, 8000, 50, 5, 500, none⟩, some 1⟩, 10),
         (⟨2, ⟨1000, 10000, 100, 6, 400, none⟩, some 1⟩, 20)] none)
      ⟨some 5, none⟩ 30 =
      (none, (200, [⟨1000, 10000, 100, 6, 400, none⟩])) :=
  (C4_latest_request_wins _ (by simp) _ _).2

/-- C5: a Ready event with no pending playback gets client error 400, the playback sink is never invoked, and the slot stays empty. -/
theorem C5_ready_without_request (req : CalibrationReadyPayload) (now : ℕ) :
    calibration_ready none req now = (none, (400, [])) := rfl

/-- C8: the rendered latency-offset field always denotes a multiple of 1/1000 (fixed three-decimal formatting), re-parsing it agrees with the stored value to three-decimal precision (within half a thousandth), and any value that is exactly a multiple of 1/1000 round-trips unchanged. -/
theorem C8_latency_offset_round_trip (q : ℚ) :
    (rendered_latency_offset q * 1000).den = 1 ∧
    |rendered_latency_offset q - q| ≤ 1 / 2000 ∧
    ((q * 1000).den = 1 → rendered_latency_offset q = q) := by
  unfold rendered_latency_offset
  refine ⟨?_, ?_, ?_⟩
  · rw [div_mul_cancel₀ _ (by norm_num : (1000 : ℚ) ≠ 0)]
    exact Rat.intCast_den _
  · have h := abs_sub_round (q * 1000)
    rw [abs_sub_comm] at h
    have hsplit : ((round (q * 1000) : ℤ) : ℚ) / 1000 - q =
        (((round (q * 1000) : ℤ) : ℚ) - q * 1000) / 1000 := by ring
    rw [hsplit, abs_div, abs_of_pos (by norm_num : (0:ℚ) < 1000)]
    calc |((round (q * 1000) : ℤ) : ℚ) - q * 1000| / 1000 ≤ (1/2) / 1000 := by
          apply div_le_div_of_nonneg_right h (by norm_num)
      _ = 1 / 2000 := by norm_num
  · intro hden
    have hint : ((q * 1000).num : ℚ) = q * 1000 :=
      (Rat.den_eq_one_iff (q * 1000)).mp hden
    have hround : round (q * 1000) = (q * 1000).num := by
      conv_lhs => rw [← hint]
      exact round_intCast _
    rw [hround, hint, mul_div_assoc]
    norm_num

/-- C8 witness: the offset -0.055 (from an applied measurement of 55 ms) renders and re-parses to exactly -0.055. -/
theorem C8_witness :
    ((-(55 / 1000 : ℚ) * 1000).den = 1) ∧
    rendered_latency_offset (-(55 / 1000 : ℚ)) = -(55 / 1000 : ℚ) :=
  ⟨by norm_num, (C8_latency_offset_round_trip _).2.2 (by norm_num)⟩

/-- C9: ShairportCalibrationSink::apply never modifies the shared in-memory configuration (the applier consumes a clone); only the persisted rendering carries the new clamped offset. -/
theorem C9_sink_apply_preserves_shared (w r : Except Unit Unit) (ov : Option ℚ)
    (shared : ShairportConfig) (sub : CalibrationSubmission) :
    (sink_apply w r ov shared sub).1.1 = shared ∧
    (w = .ok () → r = .ok () →
      (sink_apply w r ov shared sub).1.2 =
        some { shared with latency_offset_seconds :=
          -(rustClamp (ov.getD sub.latency_ms) (-250) 250) / 1000 }) := by
  cases w with
  | error e => cases e; exact ⟨rfl, by intro hcontra; simp at hcontra⟩
  | ok u =>
    cases u
    cases r with
    | error e2 => cases e2; exact ⟨rfl, by intro _ hcontra; simp at hcontra⟩
    | ok u2 => cases u2; exact ⟨rfl, fun _ _ => rfl⟩

/-- C9 witness: applying a 55 ms measurement leaves the shared configuration untouched while persisting the new offset. -/
theorem C9_witness :
    (sink_apply (.ok ()) (.ok ()) none (generate_config none .USB)
      ⟨1, 55, 9 / 10⟩).1.1 = generate_config none .USB ∧
    (sink_apply (.ok ()) (.ok ()) none (generate_config none .USB)
      ⟨1, 55, 9 / 10⟩).1.2 =
      some { generate_config none .USB with latency_offset_seconds :=
        -(rustClamp ((none : Option ℚ).getD (55 : ℚ)) (-250) 250) / 1000 } :=
  ⟨(C9_sink_apply_preserves_shared _ _ _ _ _).1,
   (C9_sink_apply_preserves_shared _ _ _ _ _).2 rfl rfl⟩

/-- C10: ShairportSettingsManager::update mutates the shared in-memory
configuration before attempting to persist: for every write and restart
result the post-call shared configuration holds every field the update
supplied, and when the configuration write fails — or the restart fails
after a successful write — an error is returned to the caller while the
shared configuration nevertheless retains the new values. -/
theorem C10_settings_update_not_atomic (cfg : ShairportConfig)
    (upd : SettingsUpdatePayload) (w r : Except Unit Unit) :
    (w = .error () → (settings_update w r cfg upd).2 = .error ()) ∧
    (r = .error () → (settings_update w r cfg upd).2 = .error ()) ∧
    (∀ n, upd.device_name = some n →
      ((settings_update w r cfg upd).1).device_name = n) ∧
    (∀ o, upd.output_device = some o →
      ((settings_update w r cfg upd).1).output_device = o) ∧
    (∀ l, upd.latency_offset_seconds = some l →
      ((settings_update w r cfg upd).1).latency_offset_seconds = l) := by
  obtain ⟨dn, od, lo⟩ := upd
  refine ⟨?_, ?_, ?_, ?_, ?_⟩
  · rintro rfl
    cases dn <;> cases od <;> cases lo <;> rfl
  · rintro rfl
    cases w with
    | error e => cases e; cases dn <;> cases od <;> cases lo <;> rfl
    | ok u => cases u; cases dn <;> cases od <;> cases lo <;> rfl
  · rintro n rfl
    cases od <;> cases lo <;> cases w with
    | error e => cases e; rfl
    | ok u => cases u; cases r <;> rfl
  · rintro o rfl
    cases lo <;> cases w with
    | error e => cases e; rfl
    | ok u => cases u; cases r <;> rfl
  · rintro l rfl
    cases w with
    | error e => cases e; rfl
    | ok u => cases u; cases r <;> rfl

/-- C10 witness: a failing write returns an error, and so does a failing
restart after a successful write, while in the latter case the shared
configuration keeps the new 0.05 s latency offset. -/
theorem C10_witness :
    (settings_update (.error ()) (.ok ())
      (generate_config none .I2S) ⟨some "Loft", some "hw:1,0", some (1 / 20)⟩).2 =
      .error () ∧
    (settings_update (.ok ()) (.error ())
      (generate_config none .I2S) ⟨some "Loft", some "hw:1,0", some (1 / 20)⟩).2 =
      .error () ∧
    ((settings_update (.ok ()) (.error ())
      (generate_config none .I2S) ⟨some "Loft", some "hw:1,0", some (1 / 20)⟩).1).latency_offset_seconds = 1 / 20 :=
  ⟨(C10_settings_update_not_atomic _ _ _ _).1 rfl,
   (C10_settings_update_not_atomic _ _ _ _).2.1 rfl,
   (C10_settings_update_not_atomic _ _ _ _).2.2.2.2 _ rfl⟩
/-- The markers of the generated structured signal, evaluated. -/
theorem structured_markers_eq :
    generate_structured_signal.markers =
      [{ id := "warmup", kind := .chirp 120 120 520, start_sample := 0, duration_samples := 24960 },
       { id := "click_a", kind := .click, start_sample := 15360, duration_samples := 576 },
       { id := "sweep_anchor", kind := .chirp 400 9000 150, start_sample := 16896, duration_samples := 7200 },
       { id := "chirp_1", kind := .chirp 800 800 120, start_sample := 33696, duration_samples := 5760 },
       { id := "chirp_2", kind := .chirp 1000 1000 120, start_sample := 51936, duration_samples := 5760 },
       { id := "chirp_3", kind := .chirp 3000 3000 120, start_sample := 70176, duration_samples := 5760 },
       { id := "chirp_4", kind := .chirp 6000 6000 120, start_sample := 88416, duration_samples := 5760 },
       { id := "chirp_5", kind := .chirp 8000 8000 120, start_sample := 106656, duration_samples := 5760 },
       { id := "chirp_6", kind := .chirp 10000 10000 120, start_sample := 124896, duration_samples := 5760 },
       { id := "chirp_7", kind := .chirp 4000 4000 120, start_sample := 143136, duration_samples := 5760 },
       { id := "click_b", kind := .click, start_sample := 170976, duration_samples := 672 },
       { id := "warmdown", kind := .chirp 200 200 220, start_sample := 174528, duration_samples := 10560 }] := by
  rfl

/-- The length of the generated structured signal, evaluated. -/
theorem structured_length_eq :
    generate_structured_signal.length_samples = 225600 := by rfl

/-- C6: the markers produced by generate_structured_signal are strictly increasing in start_sample, and every marker ends within the returned length_samples. -/
theorem C6_markers_ordered_and_bounded :
    generate_structured_signal.markers.Chain'
      (fun a b => a.start_sample < b.start_sample) ∧
    ∀ m ∈ generate_structured_signal.markers,
      m.start_sample + m.duration_samples ≤
        generate_structured_signal.length_samples := by
  rw [structured_markers_eq, structured_length_eq]
  constructor
  · simp only [List.chain'_cons, List.chain'_singleton, and_true]
    norm_num
  · decide

theorem abs_sin_le_abs_self (x : ℝ) : |Real.sin x| ≤ |x| := by
  rcases eq_or_ne x 0 with h | h
  · simp [h]
  · exact le_of_lt (Real.abs_sin_lt_abs h)

theorem abs_sin_sub_sin_le (a b : ℝ) : |Real.sin a - Real.sin b| ≤ |a - b| := by
  rw [Real.sin_sub_sin]
  calc |2 * Real.sin ((a - b) / 2) * Real.cos ((a + b) / 2)|
      = 2 * |Real.sin ((a - b) / 2)| * |Real.cos ((a + b) / 2)| := by
        rw [abs_mul, abs_mul]; norm_num
    _ ≤ 2 * |(a - b) / 2| * 1 := by
        apply mul_le_mul
        · exact mul_le_mul_of_nonneg_left (abs_sin_le_abs_self _) (by norm_num)
        · exact Real.abs_cos_le_one _
        · positivity
        · positivity
    _ = |a - b| := by
        rw [abs_div, abs_of_pos (by norm_num : (0:ℝ) < 2)]; ring

theorem abs_cos_sub_cos_le (a b : ℝ) : |Real.cos a - Real.cos b| ≤ |a - b| := by
  rw [Real.cos_sub_cos]
  calc |-2 * Real.sin ((a + b) / 2) * Real.sin ((a - b) / 2)|
      = 2 * |Real.sin ((a + b) / 2)| * |Real.sin ((a - b) / 2)| := by
        rw [abs_mul, abs_mul]; norm_num
    _ ≤ 2 * 1 * |(a - b) / 2| := by
        apply mul_le_mul
        · exact mul_le_mul_of_nonneg_left (Real.abs_sin_le_one _) (by norm_num)
        · exact abs_sin_le_abs_self _
        · positivity
        · positivity
    _ = |a - b| := by
        rw [abs_div, abs_of_pos (by norm_num : (0:ℝ) < 2)]; ring

theorem window_mem_Icc (n len fs : ℕ) :
    raised_cosine_window n len fs ∈ Set.Icc (0 : ℝ) 1 := by
  unfold raised_cosine_window
  split_ifs with h1 h2 h3
  · exact ⟨by norm_num, by norm_num⟩
  · have hc1 := Real.cos_le_one (Real.pi * n / (fadeOf len fs : ℕ))
    have hc2 := Real.neg_one_le_cos (Real.pi * n / (fadeOf len fs : ℕ))
    constructor <;> nlinarith
  · have hc1 := Real.cos_le_one
      (Real.pi * ((len - 1 - n : ℕ) : ℝ) / (fadeOf len fs : ℕ))
    have hc2 := Real.neg_one_le_cos
      (Real.pi * ((len - 1 - n : ℕ) : ℝ) / (fadeOf len fs : ℕ))
    constructor <;> nlinarith
  · exact ⟨by norm_num, by norm_num⟩

theorem window_eq_fadein (n len fs : ℕ) (h2 : ¬ len ≤ 1)
    (hn : n < fadeOf len fs) :
    raised_cosine_window n len fs =
      1 / 2 - 1 / 2 * Real.cos (Real.pi * n / (fadeOf len fs : ℕ)) := by
  unfold raised_cosine_window
  rw [if_neg h2, if_pos hn]

theorem window_eq_fadeout (n len fs : ℕ) (h2 : ¬ len ≤ 1)
    (hn : ¬ n < fadeOf len fs) (hn2 : len - fadeOf len fs ≤ n) :
    raised_cosine_window n len fs =
      1 / 2 - 1 / 2 *
        Real.cos (Real.pi * ((len - 1 - n : ℕ) : ℝ) / (fadeOf len fs : ℕ)) := by
  unfold raised_cosine_window
  rw [if_neg h2, if_neg hn, if_pos hn2]

theorem window_eq_mid (n len fs : ℕ) (h2 : ¬ len ≤ 1)
    (hn : ¬ n < fadeOf len fs) (hn2 : ¬ len - fadeOf len fs ≤ n) :
    raised_cosine_window n len fs = 1 := by
  unfold raised_cosine_window
  rw [if_neg h2, if_neg hn, if_neg hn2]

theorem window_zero_left (len fs : ℕ) (h2 : 2 ≤ len) :
    raised_cosine_window 0 len fs = 0 := by
  rw [window_eq_fadein 0 len fs (by omega) (by unfold fadeOf; omega)]
  norm_num

theorem window_zero_right (len fs : ℕ) (h2 : 2 ≤ len) :
    raised_cosine_window (len - 1) len fs = 0 := by
  have hf1 : 1 ≤ fadeOf len fs := by unfold fadeOf; omega
  have hf2 : 2 * fadeOf len fs ≤ len := by
    have : fadeOf len fs ≤ len / 2 := min_le_right _ _
    omega
  rw [window_eq_fadeout (len - 1) len fs (by omega) (by omega) (by omega)]
  rw [show len - 1 - (len - 1) = 0 from by omega]
  norm_num
theorem half_cos_diff_bound (a b c : ℝ) (h : |a - b| ≤ c) :
    |(1 / 2 - 1 / 2 * Real.cos a) - (1 / 2 - 1 / 2 * Real.cos b)| ≤ c / 2 := by
  have h2 := abs_cos_sub_cos_le a b
  have h3 : (1 / 2 - 1 / 2 * Real.cos a) - (1 / 2 - 1 / 2 * Real.cos b) =
      -(1 / 2 * (Real.cos a - Real.cos b)) := by ring
  rw [h3, abs_neg, abs_mul, abs_of_pos (by norm_num : (0:ℝ) < 1 / 2)]
  nlinarith [abs_nonneg (Real.cos a - Real.cos b)]

theorem edge_bound (f : ℝ) (hf : 1 ≤ f) :
    |1 - (1 / 2 - 1 / 2 * Real.cos (Real.pi * (f - 1) / f))| ≤
      Real.pi / (2 * f) := by
  have hfpos : (0:ℝ) < f := by linarith
  have harg : Real.pi * (f - 1) / f = Real.pi - Real.pi / f := by
    field_simp
    ring
  rw [harg, Real.cos_pi_sub]
  have hcos := abs_cos_sub_cos_le 0 (Real.pi / f)
  rw [Real.cos_zero] at hcos
  have habs : |(0:ℝ) - Real.pi / f| = Real.pi / f := by
    rw [abs_sub_comm, sub_zero, abs_of_pos (by positivity)]
  rw [habs] at hcos
  have hc1 := Real.cos_le_one (Real.pi / f)
  have hval : 1 - (1 / 2 - 1 / 2 * -Real.cos (Real.pi / f)) =
      (1 - Real.cos (Real.pi / f)) / 2 := by ring
  rw [hval, abs_div, abs_of_pos (by norm_num : (0:ℝ) < 2),
    abs_of_nonneg (by linarith : (0:ℝ) ≤ 1 - Real.cos (Real.pi / f))]
  calc (1 - Real.cos (Real.pi / f)) / 2 ≤ (Real.pi / f) / 2 := by
        apply div_le_div_of_nonneg_right ?_ (by norm_num)
        calc 1 - Real.cos (Real.pi / f) ≤ |1 - Real.cos (Real.pi / f)| :=
              le_abs_self _
          _ ≤ Real.pi / f := hcos
    _ = Real.pi / (2 * f) := by rw [div_div]; ring_nf

theorem window_delta (len fs n : ℕ) (h2 : 2 ≤ len) (hn : n + 1 < len) :
    |raised_cosine_window (n + 1) len fs - raised_cosine_window n len fs| ≤
      Real.pi / (2 * (fadeOf len fs : ℝ)) := by
  have hlen1 : ¬ len ≤ 1 := by omega
  have hf1 : 1 ≤ fadeOf len fs := by unfold fadeOf; omega
  have hf2 : 2 * fadeOf len fs ≤ len := by
    have := min_le_right (max fs 1) (len / 2)
    unfold fadeOf
    omega
  have hF : (1 : ℝ) ≤ (fadeOf len fs : ℝ) := by exact_mod_cast hf1
  have hFpos : (0 : ℝ) < (fadeOf len fs : ℝ) := by linarith
  have hπ := Real.pi_pos
  have hrhs : 0 ≤ Real.pi / (2 * (fadeOf len fs : ℝ)) := by positivity
  by_cases hA1 : n + 1 < fadeOf len fs
  · -- both in the fade-in region
    rw [window_eq_fadein (n + 1) len fs hlen1 hA1,
        window_eq_fadein n len fs hlen1 (by omega)]
    have hstep := half_cos_diff_bound
      (Real.pi * ((n + 1 : ℕ) : ℝ) / (fadeOf len fs : ℝ))
      (Real.pi * (n : ℝ) / (fadeOf len fs : ℝ))
      (Real.pi / (fadeOf len fs : ℝ))
      (by
        have harg : Real.pi * ((n + 1 : ℕ) : ℝ) / (fadeOf len fs : ℝ) -
            Real.pi * (n : ℝ) / (fadeOf len fs : ℝ) =
            Real.pi / (fadeOf len fs : ℝ) := by
          push_cast
          field_simp
          ring
        rw [harg, abs_of_pos (by positivity)])
    calc |_| ≤ (Real.pi / (fadeOf len fs : ℝ)) / 2 := hstep
      _ = Real.pi / (2 * (fadeOf len fs : ℝ)) := by rw [div_div]; ring_nf
  · by_cases hA : n < fadeOf len fs
    · -- n is the last fade-in index: n + 1 = fade
      have hnf : n = fadeOf len fs - 1 := by omega
      by_cases hB1 : len - fadeOf len fs ≤ n + 1
      · -- len = 2·fade: the first fade-out value equals the last fade-in value
        have hlen2f : len = 2 * fadeOf len fs := by omega
        rw [window_eq_fadeout (n + 1) len fs hlen1 (by omega) hB1,
            window_eq_fadein n len fs hlen1 hA]
        rw [show len - 1 - (n + 1) = fadeOf len fs - 1 from by omega, hnf]
        simp [hrhs]
      · -- n + 1 lands in the middle region
        rw [window_eq_mid (n + 1) len fs hlen1 (by omega) hB1,
            window_eq_fadein n len fs hlen1 hA]
        rw [hnf, Nat.cast_sub hf1]
        push_cast
        exact edge_bound (fadeOf len fs : ℝ) hF
    · by_cases hB : len - fadeOf len fs ≤ n
      · -- both in the fade-out region
        rw [window_eq_fadeout (n + 1) len fs hlen1 (by omega) (by omega),
            window_eq_fadeout n len fs hlen1 hA hB]
        have hk : len - 1 - n = (len - 1 - (n + 1)) + 1 := by omega
        rw [hk]
        have hstep := half_cos_diff_bound
          (Real.pi * ((len - 1 - (n + 1) : ℕ) : ℝ) / (fadeOf len fs : ℝ))
          (Real.pi * (((len - 1 - (n + 1) : ℕ) + 1 : ℕ) : ℝ) / (fadeOf len fs : ℝ))
          (Real.pi / (fadeOf len fs : ℝ))
          (by
            have harg : Real.pi * ((len - 1 - (n + 1) : ℕ) : ℝ) / (fadeOf len fs : ℝ) -
                Real.pi * (((len - 1 - (n + 1) : ℕ) + 1 : ℕ) : ℝ) / (fadeOf len fs : ℝ) =
                -(Real.pi / (fadeOf len fs : ℝ)) := by
              push_cast
              field_simp
              ring
            rw [harg, abs_neg, abs_of_pos (by positivity)])
        calc |_| ≤ (Real.pi / (fadeOf len fs : ℝ)) / 2 := hstep
          _ = Real.pi / (2 * (fadeOf len fs : ℝ)) := by rw [div_div]; ring_nf
      · by_cases hB1 : len - fadeOf len fs ≤ n + 1
        · -- n in the middle, n + 1 the first fade-out index
          rw [window_eq_fadeout (n + 1) len fs hlen1 (by omega) hB1,
              window_eq_mid n len fs hlen1 hA hB]
          have hk : len - 1 - (n + 1) = fadeOf len fs - 1 := by omega
          rw [hk, Nat.cast_sub hf1, abs_sub_comm]
          push_cast
          exact edge_bound (fadeOf len fs : ℝ) hF
        · -- both in the middle
          rw [window_eq_mid (n + 1) len fs hlen1 (by omega) hB1,
              window_eq_mid n len fs hlen1 hA hB]
          simpa using hrhs
theorem waveAt_abs_le_one (w : Waveform) (dur n : ℕ) : |waveAt w dur n| ≤ 1 := by
  cases w with
  | const => simp [waveAt]
  | sine f => exact Real.abs_sin_le_one _
  | sweep f0 f1 => exact Real.abs_sin_le_one _

theorem wrateQ_nonneg (w : Waveform) (hok : waveOK w) : 0 ≤ wrateQ w := by
  cases w with
  | const => simp [wrateQ]
  | sine f =>
    simp only [wrateQ]
    have : (0:ℚ) ≤ f := hok
    positivity
  | sweep f0 f1 =>
    simp only [wrateQ]
    obtain ⟨h0, h1⟩ := hok
    have : (0:ℚ) ≤ f1 := le_trans h0 h1
    positivity

theorem waveAt_delta (w : Waveform) (dur n : ℕ) (hok : waveOK w)
    (hn : n + 1 ≤ dur) :
    |waveAt w dur (n + 1) - waveAt w dur n| ≤ Real.pi * ((wrateQ w : ℚ) : ℝ) := by
  have hπ := Real.pi_pos
  cases w with
  | const => simp [waveAt, wrateQ]
  | sine f =>
    have hf : (0:ℚ) ≤ f := hok
    have hfR : (0:ℝ) ≤ (f : ℝ) := by exact_mod_cast hf
    have hlip := abs_sin_sub_sin_le
      (2 * Real.pi * (f : ℝ) * (((n + 1 : ℕ) : ℝ) / ((SAMPLE_RATE : ℕ) : ℝ)))
      (2 * Real.pi * (f : ℝ) * ((n : ℝ) / ((SAMPLE_RATE : ℕ) : ℝ)))
    have harg : 2 * Real.pi * (f : ℝ) * (((n + 1 : ℕ) : ℝ) / ((SAMPLE_RATE : ℕ) : ℝ)) -
        2 * Real.pi * (f : ℝ) * ((n : ℝ) / ((SAMPLE_RATE : ℕ) : ℝ)) =
        2 * Real.pi * (f : ℝ) / 48000 := by
      simp only [SAMPLE_RATE]
      push_cast
      field_simp
      ring
    rw [harg] at hlip
    calc |waveAt (.sine f) dur (n + 1) - waveAt (.sine f) dur n|
        ≤ |2 * Real.pi * (f : ℝ) / 48000| := hlip
      _ = 2 * Real.pi * (f : ℝ) / 48000 := abs_of_nonneg (by positivity)
      _ = Real.pi * ((wrateQ (.sine f) : ℚ) : ℝ) := by
          simp only [wrateQ]
          push_cast
          ring
  | sweep f0 f1 =>
    obtain ⟨h0, h1⟩ := hok
    have h0R : (0:ℝ) ≤ (f0 : ℝ) := by exact_mod_cast h0
    have h1R : (f0 : ℝ) ≤ (f1 : ℝ) := by exact_mod_cast h1
    have hdur : 1 ≤ dur := by omega
    have hD : (1:ℝ) ≤ (dur : ℝ) := by exact_mod_cast hdur
    have hDpos : (0:ℝ) < (dur : ℝ) := by linarith
    have hN : ((n : ℝ) + 1) ≤ (dur : ℝ) := by exact_mod_cast hn
    set S : ℝ := ((SAMPLE_RATE : ℕ) : ℝ) with hSdef
    have hS : S = 48000 := by rw [hSdef]; simp [SAMPLE_RATE]
    have hSpos : (0:ℝ) < S := by rw [hS]; norm_num
    set k : ℝ := ((f1 : ℝ) - (f0 : ℝ)) / ((dur : ℝ) / S) with hkdef
    have harg : ∀ m : ℕ,
        2 * Real.pi * ((f0 : ℝ) * ((m : ℝ) / S) + k / 2 * (((m : ℝ) / S) * ((m : ℝ) / S))) =
        2 * Real.pi * ((f0 : ℝ) * (m : ℝ) / S +
          ((f1 : ℝ) - (f0 : ℝ)) * ((m : ℝ) * (m : ℝ)) / (2 * (dur : ℝ) * S)) := by
      intro m
      rw [hkdef]
      field_simp
      ring
    have hdiff :
        2 * Real.pi * ((f0 : ℝ) * (((n + 1 : ℕ) : ℝ) / S) +
            k / 2 * ((((n + 1 : ℕ) : ℝ) / S) * (((n + 1 : ℕ) : ℝ) / S))) -
        2 * Real.pi * ((f0 : ℝ) * ((n : ℝ) / S) + k / 2 * (((n : ℝ) / S) * ((n : ℝ) / S))) =
        2 * Real.pi * ((f0 : ℝ) / S +
          ((f1 : ℝ) - (f0 : ℝ)) * (2 * (n : ℝ) + 1) / (2 * (dur : ℝ) * S)) := by
      rw [harg (n + 1), harg n]
      push_cast
      field_simp
      ring
    have hterm_nonneg : 0 ≤ (f0 : ℝ) / S +
        ((f1 : ℝ) - (f0 : ℝ)) * (2 * (n : ℝ) + 1) / (2 * (dur : ℝ) * S) := by
      have t1 : (0:ℝ) ≤ (f0 : ℝ) / S := by positivity
      have t2 : (0:ℝ) ≤ ((f1 : ℝ) - (f0 : ℝ)) * (2 * (n : ℝ) + 1) / (2 * (dur : ℝ) * S) := by
        apply div_nonneg
        · apply mul_nonneg (by linarith)
          have : (0:ℝ) ≤ (n : ℝ) := Nat.cast_nonneg n
          linarith
        · positivity
      linarith
    have hterm_le : (f0 : ℝ) / S +
        ((f1 : ℝ) - (f0 : ℝ)) * (2 * (n : ℝ) + 1) / (2 * (dur : ℝ) * S) ≤ (f1 : ℝ) / S := by
      have h2n : 2 * (n : ℝ) + 1 ≤ 2 * (dur : ℝ) := by linarith
      have hmul : ((f1 : ℝ) - (f0 : ℝ)) * (2 * (n : ℝ) + 1) ≤
          ((f1 : ℝ) - (f0 : ℝ)) * (2 * (dur : ℝ)) :=
        mul_le_mul_of_nonneg_left h2n (by linarith)
      have hdiv : ((f1 : ℝ) - (f0 : ℝ)) * (2 * (n : ℝ) + 1) / (2 * (dur : ℝ) * S) ≤
          ((f1 : ℝ) - (f0 : ℝ)) * (2 * (dur : ℝ)) / (2 * (dur : ℝ) * S) :=
        div_le_div_of_nonneg_right hmul (by positivity)
      have heq : ((f1 : ℝ) - (f0 : ℝ)) * (2 * (dur : ℝ)) / (2 * (dur : ℝ) * S) =
          ((f1 : ℝ) - (f0 : ℝ)) / S := by
        field_simp
        ring
      rw [heq] at hdiv
      have : (f0 : ℝ) / S + ((f1 : ℝ) - (f0 : ℝ)) / S = (f1 : ℝ) / S := by ring
      linarith
    have hlip := abs_sin_sub_sin_le
      (2 * Real.pi * ((f0 : ℝ) * (((n + 1 : ℕ) : ℝ) / S) +
        k / 2 * ((((n + 1 : ℕ) : ℝ) / S) * (((n + 1 : ℕ) : ℝ) / S))))
      (2 * Real.pi * ((f0 : ℝ) * ((n : ℝ) / S) + k / 2 * (((n : ℝ) / S) * ((n : ℝ) / S))))
    rw [hdiff] at hlip
    calc |waveAt (.sweep f0 f1) dur (n + 1) - waveAt (.sweep f0 f1) dur n|
        ≤ |2 * Real.pi * ((f0 : ℝ) / S +
            ((f1 : ℝ) - (f0 : ℝ)) * (2 * (n : ℝ) + 1) / (2 * (dur : ℝ) * S))| := hlip
      _ = 2 * Real.pi * ((f0 : ℝ) / S +
            ((f1 : ℝ) - (f0 : ℝ)) * (2 * (n : ℝ) + 1) / (2 * (dur : ℝ) * S)) := by
          apply abs_of_nonneg
          have : (0:ℝ) ≤ 2 * Real.pi := by linarith
          exact mul_nonneg this hterm_nonneg
      _ ≤ 2 * Real.pi * ((f1 : ℝ) / S) :=
          mul_le_mul_of_nonneg_left hterm_le (by linarith)
      _ = Real.pi * ((wrateQ (.sweep f0 f1) : ℚ) : ℝ) := by
          simp only [wrateQ]
          rw [hS]
          push_cast
          ring
theorem effFade_eq_fadeOf (e : SigEvent) :
    effFade e = fadeOf e.dur e.fade_samples := rfl

theorem cDeltaQ_nonneg (e : SigEvent) (hamp : 0 ≤ e.amp) (hok : waveOK e.wave) :
    0 ≤ cDeltaQ e := by
  unfold cDeltaQ
  apply mul_nonneg hamp
  have h1 := wrateQ_nonneg e.wave hok
  have h2 : (0:ℚ) ≤ 1 / (2 * (effFade e : ℚ)) := by
    apply div_nonneg (by norm_num)
    have : (0:ℚ) ≤ (effFade e : ℚ) := by positivity
    linarith
  linarith

theorem contrib_abs_le (e : SigEvent) (n : ℕ) (hamp : 0 ≤ e.amp) :
    |contrib e n| ≤
      if e.start ≤ n ∧ n < e.start + e.dur then ((e.amp : ℚ) : ℝ) else 0 := by
  unfold contrib
  split_ifs with h
  · have hampR : (0:ℝ) ≤ ((e.amp : ℚ) : ℝ) := by exact_mod_cast hamp
    have henv := window_mem_Icc (n - e.start) e.dur e.fade_samples
    have henv_abs : |raised_cosine_window (n - e.start) e.dur e.fade_samples| ≤ 1 := by
      rw [abs_of_nonneg henv.1]
      exact henv.2
    have hw := waveAt_abs_le_one e.wave e.dur (n - e.start)
    rw [abs_mul, abs_mul]
    calc |((e.amp : ℚ) : ℝ)| * |raised_cosine_window (n - e.start) e.dur e.fade_samples| *
          |waveAt e.wave e.dur (n - e.start)|
        ≤ |((e.amp : ℚ) : ℝ)| * 1 * 1 := by
          apply mul_le_mul _ hw (abs_nonneg _) (by positivity)
          exact mul_le_mul le_rfl henv_abs (abs_nonneg _) (abs_nonneg _)
      _ = ((e.amp : ℚ) : ℝ) := by rw [abs_of_nonneg hampR]; ring
  · simp

theorem contrib_delta_zero (e : SigEvent) (n : ℕ)
    (hwin : ¬(e.start ≤ n + 1 ∧ n < e.start + e.dur)) :
    contrib e (n + 1) - contrib e n = 0 := by
  unfold contrib
  rw [if_neg (show ¬(e.start ≤ n + 1 ∧ n + 1 < e.start + e.dur) by omega),
      if_neg (show ¬(e.start ≤ n ∧ n < e.start + e.dur) by omega)]
  ring

theorem contrib_delta_le (e : SigEvent) (n : ℕ) (h2 : 2 ≤ e.dur)
    (hamp : 0 ≤ e.amp) (hok : waveOK e.wave) :
    |contrib e (n + 1) - contrib e n| ≤ Real.pi * ((cDeltaQ e : ℚ) : ℝ) := by
  have hπ := Real.pi_pos
  have hcd := cDeltaQ_nonneg e hamp hok
  have hrhs : (0:ℝ) ≤ Real.pi * ((cDeltaQ e : ℚ) : ℝ) := by
    apply mul_nonneg (le_of_lt hπ)
    exact_mod_cast hcd
  by_cases hwin : e.start ≤ n + 1 ∧ n < e.start + e.dur
  · by_cases hcn : e.start ≤ n
    · by_cases hcn1 : n + 1 < e.start + e.dur
      · -- both samples inside the event
        have hm : n + 1 - e.start = (n - e.start) + 1 := by omega
        have hc1 : contrib e (n + 1) =
            ((e.amp : ℚ) : ℝ) *
              raised_cosine_window ((n - e.start) + 1) e.dur e.fade_samples *
              waveAt e.wave e.dur ((n - e.start) + 1) := by
          unfold contrib
          rw [if_pos (by omega), hm]
        have hc2 : contrib e n =
            ((e.amp : ℚ) : ℝ) *
              raised_cosine_window (n - e.start) e.dur e.fade_samples *
              waveAt e.wave e.dur (n - e.start) := by
          unfold contrib
          rw [if_pos (by omega)]
        have hWd := window_delta e.dur e.fade_samples (n - e.start) h2 (by omega)
        have hVd := waveAt_delta e.wave e.dur (n - e.start) hok (by omega)
        have hW1 := window_mem_Icc ((n - e.start) + 1) e.dur e.fade_samples
        have hW1abs : |raised_cosine_window ((n - e.start) + 1) e.dur e.fade_samples| ≤ 1 := by
          rw [abs_of_nonneg hW1.1]
          exact hW1.2
        have hV := waveAt_abs_le_one e.wave e.dur (n - e.start)
        have hampR : (0:ℝ) ≤ ((e.amp : ℚ) : ℝ) := by exact_mod_cast hamp
        rw [hc1, hc2]
        have hsplit : ((e.amp : ℚ) : ℝ) *
              raised_cosine_window ((n - e.start) + 1) e.dur e.fade_samples *
              waveAt e.wave e.dur ((n - e.start) + 1) -
            ((e.amp : ℚ) : ℝ) *
              raised_cosine_window (n - e.start) e.dur e.fade_samples *
              waveAt e.wave e.dur (n - e.start) =
            ((e.amp : ℚ) : ℝ) *
              (raised_cosine_window ((n - e.start) + 1) e.dur e.fade_samples *
                (waveAt e.wave e.dur ((n - e.start) + 1) - waveAt e.wave e.dur (n - e.start)) +
               waveAt e.wave e.dur (n - e.start) *
                (raised_cosine_window ((n - e.start) + 1) e.dur e.fade_samples -
                  raised_cosine_window (n - e.start) e.dur e.fade_samples)) := by
          ring
        rw [hsplit, abs_mul, abs_of_nonneg hampR]
        have hinner :
            |raised_cosine_window ((n - e.start) + 1) e.dur e.fade_samples *
                (waveAt e.wave e.dur ((n - e.start) + 1) - waveAt e.wave e.dur (n - e.start)) +
              waveAt e.wave e.dur (n - e.start) *
                (raised_cosine_window ((n - e.start) + 1) e.dur e.fade_samples -
                  raised_cosine_window (n - e.start) e.dur e.fade_samples)| ≤
            Real.pi * ((wrateQ e.wave : ℚ) : ℝ) +
              Real.pi / (2 * (fadeOf e.dur e.fade_samples : ℝ)) := by
          calc |_| ≤
              |raised_cosine_window ((n - e.start) + 1) e.dur e.fade_samples *
                (waveAt e.wave e.dur ((n - e.start) + 1) - waveAt e.wave e.dur (n - e.start))| +
              |waveAt e.wave e.dur (n - e.start) *
                (raised_cosine_window ((n - e.start) + 1) e.dur e.fade_samples -
                  raised_cosine_window (n - e.start) e.dur e.fade_samples)| := abs_add _ _
            _ ≤ 1 * (Real.pi * ((wrateQ e.wave : ℚ) : ℝ)) +
                1 * (Real.pi / (2 * (fadeOf e.dur e.fade_samples : ℝ))) := by
              apply add_le_add
              · rw [abs_mul]
                apply mul_le_mul hW1abs hVd (abs_nonneg _) (by norm_num)
              · rw [abs_mul]
                apply mul_le_mul hV hWd (abs_nonneg _) (by norm_num)
            _ = Real.pi * ((wrateQ e.wave : ℚ) : ℝ) +
                Real.pi / (2 * (fadeOf e.dur e.fade_samples : ℝ)) := by ring
        calc ((e.amp : ℚ) : ℝ) * |_| ≤
            ((e.amp : ℚ) : ℝ) *
              (Real.pi * ((wrateQ e.wave : ℚ) : ℝ) +
                Real.pi / (2 * (fadeOf e.dur e.fade_samples : ℝ))) :=
              mul_le_mul_of_nonneg_left hinner hampR
          _ = Real.pi * ((cDeltaQ e : ℚ) : ℝ) := by
              simp only [cDeltaQ, effFade_eq_fadeOf]
              push_cast
              have hfpos : (0:ℝ) < (fadeOf e.dur e.fade_samples : ℝ) := by
                have : 1 ≤ fadeOf e.dur e.fade_samples := by
                  unfold fadeOf
                  omega
                have := (Nat.one_le_cast (α := ℝ)).mpr this
                linarith
              field_simp
              ring
      · -- n is the last sample of the event; the window vanishes there
        have hc1 : contrib e (n + 1) = 0 := by
          unfold contrib
          rw [if_neg (by omega)]
        have hc2 : contrib e n = 0 := by
          unfold contrib
          rw [if_pos (by omega),
            show n - e.start = e.dur - 1 from by omega,
            window_zero_right e.dur e.fade_samples h2]
          ring
        rw [hc1, hc2]
        simpa using hrhs
    · -- n + 1 is the first sample of the event; the window vanishes there
      have hc1 : contrib e n = 0 := by
        unfold contrib
        rw [if_neg (by omega)]
      have hc2 : contrib e (n + 1) = 0 := by
        unfold contrib
        split_ifs with hcov
        · rw [show n + 1 - e.start = 0 from by omega,
            window_zero_left e.dur e.fade_samples h2]
          ring
        · rfl
      rw [hc1, hc2]
      simpa using hrhs
  · rw [contrib_delta_zero e n hwin, abs_zero]
    exact hrhs

theorem chain_sep_all (e : SigEvent) (t : List SigEvent)
    (h : (e :: t).Chain' (fun a b => a.start + a.dur + 1 ≤ b.start)) :
    ∀ x ∈ t, e.start + e.dur + 1 ≤ x.start := by
  induction t generalizing e with
  | nil =>
    intro x hx
    cases hx
  | cons f t2 ih =>
    intro x hx
    rw [List.chain'_cons] at h
    obtain ⟨hef, hrest⟩ := h
    rcases List.mem_cons.mp hx with rfl | hx2
    · exact hef
    · have := ih f hrest x hx2
      omega

theorem sep_sum_bound (n : ℕ) (g c : SigEvent → ℝ) (M : ℝ) (hM0 : 0 ≤ M) :
    ∀ l : List SigEvent,
      l.Chain' (fun a b => a.start + a.dur + 1 ≤ b.start) →
      (∀ e ∈ l, |g e| ≤ if e.start ≤ n + 1 ∧ n < e.start + e.dur then c e else 0) →
      (∀ e ∈ l, c e ≤ M) →
      |(l.map g).sum| ≤ M := by
  intro l
  induction l with
  | nil =>
    intro _ _ _
    simpa using hM0
  | cons e t ih =>
    intro hsep hb hcM
    rw [List.map_cons, List.sum_cons]
    by_cases hwin : e.start ≤ n + 1 ∧ n < e.start + e.dur
    · have hall := chain_sep_all e t hsep
      have hsum0 : (t.map g).sum = 0 := by
        apply List.sum_eq_zero
        intro x hx
        obtain ⟨y, hy, rfl⟩ := List.mem_map.mp hx
        have hys := hall y hy
        have hby := hb y (List.mem_cons_of_mem e hy)
        rw [if_neg (by omega)] at hby
        exact abs_eq_zero.mp (le_antisymm hby (abs_nonneg _))
      rw [hsum0, add_zero]
      have hbe := hb e (List.mem_cons_self e t)
      rw [if_pos hwin] at hbe
      exact le_trans hbe (hcM e (List.mem_cons_self e t))
    · have hbe := hb e (List.mem_cons_self e t)
      rw [if_neg hwin] at hbe
      have hge : g e = 0 := abs_eq_zero.mp (le_antisymm hbe (abs_nonneg _))
      rw [hge, zero_add]
      exact ih hsep.tail (fun x hx => hb x (List.mem_cons_of_mem e hx))
        (fun x hx => hcM x (List.mem_cons_of_mem e hx))

theorem structured_events_eq :
    generate_structured_signal.events = prerollEvent :: restEvents := by rfl

theorem restEvents_sep :
    restEvents.Chain' (fun a b => a.start + a.dur + 1 ≤ b.start) := by
  simp only [restEvents, List.chain'_cons, List.chain'_singleton, and_true]
  norm_num

theorem restEvents_facts :
    ∀ e ∈ restEvents,
      0 ≤ e.amp ∧ e.amp ≤ 85 / 100 ∧ 2 ≤ e.dur ∧ cDeltaQ e ≤ 36 / 100 := by
  intro e he
  fin_cases he <;>
    exact ⟨by norm_num, by norm_num, by norm_num,
      by norm_num [cDeltaQ, wrateQ, effFade]⟩

theorem restEvents_waveOK : ∀ e ∈ restEvents, waveOK e.wave := by
  intro e he
  fin_cases he <;> norm_num [waveOK]

theorem prerollEvent_facts :
    0 ≤ prerollEvent.amp ∧ 2 ≤ prerollEvent.dur ∧
      cDeltaQ prerollEvent ≤ 1 / 2000 := by
  refine ⟨by norm_num [prerollEvent], by norm_num [prerollEvent], ?_⟩
  norm_num [cDeltaQ, wrateQ, effFade, prerollEvent]

theorem prerollEvent_waveOK : waveOK prerollEvent.wave := by
  norm_num [waveOK, prerollEvent]

theorem signalSample_eq (n : ℕ) :
    signalSample n =
      contrib prerollEvent n + (restEvents.map (fun e => contrib e n)).sum := by
  unfold signalSample
  rw [structured_events_eq, List.map_cons, List.sum_cons]

theorem signalSample_abs_le (n : ℕ) : |signalSample n| ≤ 94 / 100 := by
  rw [signalSample_eq]
  have h1 : |contrib prerollEvent n| ≤ 9 / 100 := by
    have hc := contrib_abs_le prerollEvent n (by norm_num [prerollEvent])
    split_ifs at hc with h
    · calc |contrib prerollEvent n| ≤ ((prerollEvent.amp : ℚ) : ℝ) := hc
        _ = 9 / 100 := by norm_num [prerollEvent]
    · linarith [abs_nonneg (contrib prerollEvent n)]
  have h2 : |(restEvents.map (fun e => contrib e n)).sum| ≤ 85 / 100 := by
    apply sep_sum_bound n (fun e => contrib e n) (fun e => ((e.amp : ℚ) : ℝ))
      (85 / 100) (by norm_num) restEvents restEvents_sep
    · intro e he
      have hamp := (restEvents_facts e he).1
      have hc := contrib_abs_le e n hamp
      by_cases hcov : e.start ≤ n ∧ n < e.start + e.dur
      · rw [if_pos hcov] at hc
        rw [if_pos (by omega)]
        exact hc
      · rw [if_neg hcov] at hc
        split_ifs with hwin
        · calc |contrib e n| ≤ 0 := hc
            _ ≤ ((e.amp : ℚ) : ℝ) := by exact_mod_cast hamp
        · exact hc
    · intro e he
      have := (restEvents_facts e he).2.1
      calc ((e.amp : ℚ) : ℝ) ≤ ((85 / 100 : ℚ) : ℝ) := by exact_mod_cast this
        _ = 85 / 100 := by norm_num
  calc |contrib prerollEvent n + (restEvents.map (fun e => contrib e n)).sum|
      ≤ |contrib prerollEvent n| + |(restEvents.map (fun e => contrib e n)).sum| :=
        abs_add _ _
    _ ≤ 9 / 100 + 85 / 100 := add_le_add h1 h2
    _ = 94 / 100 := by norm_num

theorem list_sum_map_sub (l : List SigEvent) (f g : SigEvent → ℝ) :
    (l.map f).sum - (l.map g).sum = (l.map (fun e => f e - g e)).sum := by
  induction l with
  | nil => simp
  | cons e t ih =>
    rw [List.map_cons, List.map_cons, List.map_cons, List.sum_cons, List.sum_cons,
      List.sum_cons, ← ih]
    ring

theorem signalSample_delta_le (n : ℕ) :
    |signalSample (n + 1) - signalSample n| ≤ Real.pi * (721 / 2000) := by
  have hπ := Real.pi_pos
  rw [signalSample_eq (n + 1), signalSample_eq n]
  have hrw : contrib prerollEvent (n + 1) +
        (restEvents.map (fun e => contrib e (n + 1))).sum -
        (contrib prerollEvent n + (restEvents.map (fun e => contrib e n)).sum) =
      (contrib prerollEvent (n + 1) - contrib prerollEvent n) +
        ((restEvents.map (fun e => contrib e (n + 1))).sum -
          (restEvents.map (fun e => contrib e n)).sum) := by ring
  rw [hrw, list_sum_map_sub]
  have h1 : |contrib prerollEvent (n + 1) - contrib prerollEvent n| ≤
      Real.pi * (1 / 2000) := by
    have hb := contrib_delta_le prerollEvent n prerollEvent_facts.2.1
      prerollEvent_facts.1 prerollEvent_waveOK
    calc |contrib prerollEvent (n + 1) - contrib prerollEvent n|
        ≤ Real.pi * ((cDeltaQ prerollEvent : ℚ) : ℝ) := hb
      _ ≤ Real.pi * (1 / 2000) := by
          apply mul_le_mul_of_nonneg_left _ (le_of_lt hπ)
          have := prerollEvent_facts.2.2
          calc ((cDeltaQ prerollEvent : ℚ) : ℝ) ≤ ((1 / 2000 : ℚ) : ℝ) := by
                exact_mod_cast this
            _ = 1 / 2000 := by norm_num
  have h2 : |(restEvents.map (fun e => contrib e (n + 1) - contrib e n)).sum| ≤
      Real.pi * (36 / 100) := by
    apply sep_sum_bound n (fun e => contrib e (n + 1) - contrib e n)
      (fun e => Real.pi * ((cDeltaQ e : ℚ) : ℝ)) (Real.pi * (36 / 100))
      (by positivity) restEvents restEvents_sep
    · intro e he
      obtain ⟨hamp, _, hdur, _⟩ := restEvents_facts e he
      have hok := restEvents_waveOK e he
      split_ifs with hwin
      · exact contrib_delta_le e n hdur hamp hok
      · rw [contrib_delta_zero e n hwin, abs_zero]
    · intro e he
      obtain ⟨hamp, _, _, hcd⟩ := restEvents_facts e he
      apply mul_le_mul_of_nonneg_left _ (le_of_lt hπ)
      calc ((cDeltaQ e : ℚ) : ℝ) ≤ ((36 / 100 : ℚ) : ℝ) := by exact_mod_cast hcd
        _ = 36 / 100 := by norm_num
  calc |(contrib prerollEvent (n + 1) - contrib prerollEvent n) +
        (restEvents.map (fun e => contrib e (n + 1) - contrib e n)).sum|
      ≤ |contrib prerollEvent (n + 1) - contrib prerollEvent n| +
        |(restEvents.map (fun e => contrib e (n + 1) - contrib e n)).sum| := abs_add _ _
    _ ≤ Real.pi * (1 / 2000) + Real.pi * (36 / 100) := add_le_add h1 h2
    _ = Real.pi * (721 / 2000) := by ring

theorem rustClampR_abs_le (x : ℝ) :
    |rustClampR x (-(97 / 100)) (97 / 100)| ≤ |x| := by
  have h0 := abs_nonneg x
  have h1 := le_abs_self x
  have h2 := neg_abs_le x
  unfold rustClampR
  split_ifs with ha hb
  · rw [abs_of_nonpos (by norm_num : (-(97 / 100) : ℝ) ≤ 0)]
    linarith
  · rw [abs_of_pos (by norm_num : (0:ℝ) < 97 / 100)]
    linarith
  · linarith [le_refl |x|]

theorem rustClampR_lipschitz (a b : ℝ) :
    |rustClampR a (-(97 / 100)) (97 / 100) -
      rustClampR b (-(97 / 100)) (97 / 100)| ≤ |a - b| := by
  have h0 := abs_nonneg (a - b)
  have h1 := le_abs_self (a - b)
  have h2 := neg_abs_le (a - b)
  unfold rustClampR
  split_ifs <;> rw [abs_sub_le_iff] <;> constructor <;> linarith

theorem truncZ_abs_le (x : ℝ) : |(truncZ x : ℝ)| ≤ |x| := by
  unfold truncZ
  split_ifs with h
  · have hfl : (0:ℤ) ≤ ⌊x⌋ := Int.floor_nonneg.mpr h
    rw [abs_of_nonneg (by exact_mod_cast hfl : (0:ℝ) ≤ ((⌊x⌋ : ℤ) : ℝ)),
      abs_of_nonneg h]
    exact Int.floor_le x
  · push_neg at h
    have hcl : ⌈x⌉ ≤ 0 := Int.ceil_le.mpr (by exact_mod_cast le_of_lt h)
    rw [abs_of_nonpos (by exact_mod_cast hcl : ((⌈x⌉ : ℤ) : ℝ) ≤ 0),
      abs_of_neg h]
    have := Int.le_ceil x
    linarith

theorem truncZ_near (x : ℝ) : |(truncZ x : ℝ) - x| ≤ 1 := by
  unfold truncZ
  split_ifs with h
  · have h1 := Int.floor_le x
    have h2 := Int.lt_floor_add_one x
    rw [abs_of_nonpos (by linarith)]
    linarith
  · have h1 := Int.le_ceil x
    have h2 := Int.ceil_lt_add_one x
    rw [abs_of_nonneg (by linarith)]
    linarith

/-- C7: every 16-bit PCM sample of the structured signal has absolute value at most 0.95 of full scale (0.95 * 32767), and the normalized sample-to-sample delta is at most 1.25. -/
theorem C7_headroom_and_delta (n : ℕ) :
    |((pcmSample n : ℤ) : ℝ)| ≤ (95 / 100) * 32767 ∧
    |((pcmSample (n + 1) : ℤ) : ℝ) - ((pcmSample n : ℤ) : ℝ)| / 32767 ≤ 5 / 4 := by
  have hπ := Real.pi_pos
  have hπ315 : Real.pi < 3.15 := Real.pi_lt_d2
  constructor
  · unfold pcmSample
    calc |((truncZ (rustClampR (signalSample n) (-(97 / 100)) (97 / 100) * 32767) : ℤ) : ℝ)|
        ≤ |rustClampR (signalSample n) (-(97 / 100)) (97 / 100) * 32767| := truncZ_abs_le _
      _ = |rustClampR (signalSample n) (-(97 / 100)) (97 / 100)| * 32767 := by
          rw [abs_mul, abs_of_pos (by norm_num : (0:ℝ) < 32767)]
      _ ≤ |signalSample n| * 32767 :=
          mul_le_mul_of_nonneg_right (rustClampR_abs_le _) (by norm_num)
      _ ≤ (94 / 100) * 32767 :=
          mul_le_mul_of_nonneg_right (signalSample_abs_le n) (by norm_num)
      _ ≤ (95 / 100) * 32767 := by norm_num
  · rw [div_le_iff₀ (by norm_num : (0:ℝ) < 32767)]
    have hd := signalSample_delta_le n
    have hclip := rustClampR_lipschitz (signalSample (n + 1)) (signalSample n)
    have ht1 := truncZ_near (rustClampR (signalSample (n + 1)) (-(97 / 100)) (97 / 100) * 32767)
    have ht2 := truncZ_near (rustClampR (signalSample n) (-(97 / 100)) (97 / 100) * 32767)
    unfold pcmSample
    have hy : |rustClampR (signalSample (n + 1)) (-(97 / 100)) (97 / 100) * 32767 -
        rustClampR (signalSample n) (-(97 / 100)) (97 / 100) * 32767| ≤
        Real.pi * (721 / 2000) * 32767 := by
      rw [show rustClampR (signalSample (n + 1)) (-(97 / 100)) (97 / 100) * 32767 -
          rustClampR (signalSample n) (-(97 / 100)) (97 / 100) * 32767 =
          (rustClampR (signalSample (n + 1)) (-(97 / 100)) (97 / 100) -
            rustClampR (signalSample n) (-(97 / 100)) (97 / 100)) * 32767 from by ring]
      rw [abs_mul, abs_of_pos (by norm_num : (0:ℝ) < 32767)]
      apply mul_le_mul_of_nonneg_right _ (by norm_num)
      exact le_trans hclip hd
    have htri : |((truncZ (rustClampR (signalSample (n + 1)) (-(97 / 100)) (97 / 100) * 32767) : ℤ) : ℝ) -
        ((truncZ (rustClampR (signalSample n) (-(97 / 100)) (97 / 100) * 32767) : ℤ) : ℝ)| ≤
        1 + (Real.pi * (721 / 2000) * 32767 + 1) := by
      calc |((truncZ (rustClampR (signalSample (n + 1)) (-(97 / 100)) (97 / 100) * 32767) : ℤ) : ℝ) -
          ((truncZ (rustClampR (signalSample n) (-(97 / 100)) (97 / 100) * 32767) : ℤ) : ℝ)|
          = |(((truncZ (rustClampR (signalSample (n + 1)) (-(97 / 100)) (97 / 100) * 32767) : ℤ) : ℝ) -
              rustClampR (signalSample (n + 1)) (-(97 / 100)) (97 / 100) * 32767) +
             ((rustClampR (signalSample (n + 1)) (-(97 / 100)) (97 / 100) * 32767 -
              rustClampR (signalSample n) (-(97 / 100)) (97 / 100) * 32767) +
             (rustClampR (signalSample n) (-(97 / 100)) (97 / 100) * 32767 -
              ((truncZ (rustClampR (signalSample n) (-(97 / 100)) (97 / 100) * 32767) : ℤ) : ℝ)))| := by
            ring_nf
        _ ≤ |((truncZ (rustClampR (signalSample (n + 1)) (-(97 / 100)) (97 / 100) * 32767) : ℤ) : ℝ) -
              rustClampR (signalSample (n + 1)) (-(97 / 100)) (97 / 100) * 32767| +
            |(rustClampR (signalSample (n + 1)) (-(97 / 100)) (97 / 100) * 32767 -
              rustClampR (signalSample n) (-(97 / 100)) (97 / 100) * 32767) +
             (rustClampR (signalSample n) (-(97 / 100)) (97 / 100) * 32767 -
              ((truncZ (rustClampR (signalSample n) (-(97 / 100)) (97 / 100) * 32767) : ℤ) : ℝ))| :=
            abs_add _ _
        _ ≤ 1 + (Real.pi * (721 / 2000) * 32767 + 1) := by
            apply add_le_add ht1
            calc |(rustClampR (signalSample (n + 1)) (-(97 / 100)) (97 / 100) * 32767 -
                rustClampR (signalSample n) (-(97 / 100)) (97 / 100) * 32767) +
               (rustClampR (signalSample n) (-(97 / 100)) (97 / 100) * 32767 -
                ((truncZ (rustClampR (signalSample n) (-(97 / 100)) (97 / 100) * 32767) : ℤ) : ℝ))|
                ≤ |rustClampR (signalSample (n + 1)) (-(97 / 100)) (97 / 100) * 32767 -
                    rustClampR (signalSample n) (-(97 / 100)) (97 / 100) * 32767| +
                  |rustClampR (signalSample n) (-(97 / 100)) (97 / 100) * 32767 -
                    ((truncZ (rustClampR (signalSample n) (-(97 / 100)) (97 / 100) * 32767) : ℤ) : ℝ)| :=
                  abs_add _ _
              _ ≤ Real.pi * (721 / 2000) * 32767 + 1 := by
                  apply add_le_add hy
                  rw [abs_sub_comm]
                  exact ht2
    calc |((truncZ (rustClampR (signalSample (n + 1)) (-(97 / 100)) (97 / 100) * 32767) : ℤ) : ℝ) -
        ((truncZ (rustClampR (signalSample n) (-(97 / 100)) (97 / 100) * 32767) : ℤ) : ℝ)|
        ≤ 1 + (Real.pi * (721 / 2000) * 32767 + 1) := htri
      _ ≤ 5 / 4 * 32767 := by nlinarith
